import Mathlib

/-!
Verification of the ubxlib streaming-transport message pipeline, RingStore
(multi-cursor ring buffer) part, plus the synchronous UBX send/retry loop.

The ring buffer implementation file itself is not part of the sources given
(only its test, u_utils_test_ringbuffer.c, and its consumers are), so the
RingStore operations below are modelled from the specification (spec.md
sections 3 and 4.1) and cross-checked against every assertion sequence of
the in-repository test.

The model uses a monotonic abstraction of the circular buffer: instead of
offsets mod C, the full history of successfully written bytes is kept as a
list (the stream); the physical write offset W is the stream length and
every read pointer is an absolute position into the stream.  The one-byte
reservation and wrap-around behaviour of the C code appear through the
capacity bound: no read pointer is ever allowed to lag more than
capacity - 1 behind W (addIfFits refuses, forceAdd evicts), so the live
window always fits in the physical storage and the abstraction is faithful.
-/

/-- Modelled from the spec: the RingStore of spec.md section 3
(implementation file u_ringbuffer.c is absent from the sources).
capacity is C; the write offset W is stream.length; r0 is the persistent
read position of the unhandled ("normal") read path, conceptually cursor 0;
cursors are the read-handle slots, some r meaning "taken, next unread byte
at absolute position r". handledOnly is the "handled-reads-only" flag. -/
structure RingStore where
  created : Bool
  capacity : Nat
  handledOnly : Bool
  stream : List Nat
  r0 : Nat
  cursors : List (Option Nat)
deriving Repr, DecidableEq

namespace RingStore

/-- Modelled from the spec: uRingBufferCreateWithReadHandle binds storage of
the given size (the capacity) and a maximum number of read handles; offsets
start at zero, no cursor taken, handled-reads-only off. -/
def createWithReadHandle (capacity maxHandles : Nat) : RingStore :=
  { created := true, capacity := capacity, handledOnly := false,
    stream := [], r0 := 0, cursors := List.replicate maxHandles none }

/-- Modelled from the spec: uRingBufferCreate is the handle-less variant;
taking a read handle always fails on it. -/
def create (capacity : Nat) : RingStore :=
  createWithReadHandle capacity 0

/-- A ring buffer that was never created: the all-zeroes uRingBuffer_t of
the test's "uninitialised" section. -/
def uninit : RingStore :=
  { created := false, capacity := 0, handledOnly := false,
    stream := [], r0 := 0, cursors := [] }

/-- Pending (not yet consumed) byte counts of every active read pointer:
the unhandled position r0 and each taken cursor. -/
def lags (s : RingStore) : List Nat :=
  (s.stream.length - s.r0) ::
    s.cursors.filterMap (fun c => c.map (fun r => s.stream.length - r))

/-- The number of buffer bytes still held by the slowest active pointer. -/
def usedSize (s : RingStore) : Nat :=
  (lags s).foldr max 0

/-- Modelled from the spec: uRingBufferAvailableSize; one byte of capacity
is always reserved to distinguish full from empty, and space held by any
active read pointer (the unhandled one included) is not available. -/
def availableSize (s : RingStore) : Nat :=
  if s.created then s.capacity - 1 - usedSize s else 0

/-- Modelled from the spec: uRingBufferDataSize, the unhandled path's
pending byte count; returns 0 when handled-reads-only is set, regardless
of buffer contents. -/
def dataSize (s : RingStore) : Nat :=
  if s.created && !s.handledOnly then s.stream.length - s.r0 else 0

/-- Modelled from the spec: uRingBufferDataSizeHandle, a taken cursor's
pending byte count. -/
def dataSizeHandle (s : RingStore) (h : Nat) : Nat :=
  if s.created then
    match s.cursors.getD h none with
    | some r => s.stream.length - r
    | none => 0
  else 0

/-- Modelled from the spec: uRingBufferAdd (addIfFits): fails atomically
when the payload would exceed availableSize(); on success appends the bytes.
When handled-reads-only is set the unhandled read position is kept at the
write position (the unhandled path never sees data in that mode). -/
def add (s : RingStore) (data : List Nat) : Bool × RingStore :=
  if !s.created then (false, s)
  else if s.availableSize < data.length then (false, s)
  else (true, { s with stream := s.stream ++ data,
                       r0 := if s.handledOnly then s.stream.length + data.length
                             else s.r0 })

/-- Modelled from the spec: uRingBufferForceAdd: fails (leaving the store
untouched) only when the payload length is at least the capacity; otherwise
it appends the bytes and advances every read pointer that would otherwise
lag more than capacity - 1 behind the new write position, i.e. the oldest
unread bytes are evicted, per pointer, exactly as far as needed. -/
def forceAdd (s : RingStore) (data : List Nat) : Bool × RingStore :=
  if !s.created then (false, s)
  else if s.capacity ≤ data.length then (false, s)
  else
    (true,
      { s with stream := s.stream ++ data,
               r0 := if s.handledOnly then s.stream.length + data.length
                     else max s.r0 (s.stream.length + data.length - (s.capacity - 1)),
               cursors := s.cursors.map (Option.map
                 (fun r => max r (s.stream.length + data.length - (s.capacity - 1)))) })

/-- Modelled from the spec: the consuming part of uRingBufferRead (unhandled
path): returns up to maxLen pending bytes, oldest first, advancing r0;
returns nothing when handled-reads-only is set or the store is not created. -/
def readCore (s : RingStore) (maxLen : Nat) : List Nat × RingStore :=
  if s.created && !s.handledOnly then
    let n := min maxLen (s.stream.length - s.r0)
    ((s.stream.drop s.r0).take n, { s with r0 := s.r0 + n })
  else ([], s)

/-- Modelled from the spec: the consuming part of uRingBufferReadHandle:
returns up to maxLen of the taken cursor's pending bytes, oldest first,
advancing that cursor only. -/
def readHandleCore (s : RingStore) (h maxLen : Nat) : List Nat × RingStore :=
  if s.created then
    match s.cursors.getD h none with
    | some r =>
      let n := min maxLen (s.stream.length - r)
      ((s.stream.drop r).take n, { s with cursors := s.cursors.set h (some (r + n)) })
    | none => ([], s)
  else ([], s)

/-- Modelled from the spec: uRingBufferRead with the caller's output buffer
made explicit: returns the byte count, the output buffer after the call
(only its first n bytes overwritten) and the new store state. -/
def read (s : RingStore) (out : List Nat) (maxLen : Nat) :
    Nat × List Nat × RingStore :=
  let p := readCore s maxLen
  (p.fst.length, p.fst ++ out.drop p.fst.length, p.snd)

/-- Modelled from the spec: uRingBufferReadHandle with the caller's output
buffer made explicit. -/
def readHandle (s : RingStore) (h : Nat) (out : List Nat) (maxLen : Nat) :
    Nat × List Nat × RingStore :=
  let p := readHandleCore s h maxLen
  (p.fst.length, p.fst ++ out.drop p.fst.length, p.snd)

/-- Modelled from the spec: uRingBufferTakeReadHandle: grabs the first free
cursor slot, starting it at the current write position (a cursor observes
only data added after it was taken); fails when none is free or the store
was never created. -/
def takeReadHandle (s : RingStore) : Option Nat × RingStore :=
  if !s.created then (none, s)
  else
    match s.cursors.findIdx? (fun c => c.isNone) with
    | some i => (some i, { s with cursors := s.cursors.set i (some s.stream.length) })
    | none => (none, s)

/-- Modelled from the spec: uRingBufferGiveReadHandle frees a cursor slot. -/
def giveReadHandle (s : RingStore) (h : Nat) : RingStore :=
  if s.created then { s with cursors := s.cursors.set h none } else s

/-- Modelled from the spec: uRingBufferSetReadRequiresHandle. -/
def setReadRequiresHandle (s : RingStore) (b : Bool) : RingStore :=
  if s.created then { s with handledOnly := b } else s

/-- Modelled from the spec: uRingBufferGetReadRequiresHandle. -/
def getReadRequiresHandle (s : RingStore) : Bool :=
  s.created && s.handledOnly

/-- Modelled from the spec: uRingBufferReset zeroes offsets without
reallocating; taken cursors stay taken. -/
def reset (s : RingStore) : RingStore :=
  if s.created then
    { s with stream := [], r0 := 0,
             cursors := s.cursors.map (Option.map (fun _ => 0)) }
  else s

/-- Modelled from the spec: uRingBufferDelete releases the instance; every
subsequent operation is a no-op or failure. -/
def delete (s : RingStore) : RingStore :=
  { s with created := false }

/-- A taken cursor's not-yet-consumed byte sequence, oldest first. -/
def unreadSeq (s : RingStore) (h : Nat) : List Nat :=
  match s.cursors.getD h none with
  | some r => s.stream.drop r
  | none => []

end RingStore

/-- One RingStore operation, for reasoning about arbitrary operation
sequences: addIfFits, forceAdd, an unhandled read, or a cursor read. -/
inductive RingOp where
  | add (data : List Nat)
  | forceAdd (data : List Nat)
  | read (maxLen : Nat)
  | readHandle (h maxLen : Nat)

/-- Whether an operation is a forced add (the only one that can evict). -/
def RingOp.isForce : RingOp → Bool
  | RingOp.forceAdd _ => true
  | _ => false

namespace RingStore

/-- The state after one operation (results discarded). -/
def applyOp (s : RingStore) : RingOp → RingStore
  | RingOp.add d => (s.add d).snd
  | RingOp.forceAdd d => (s.forceAdd d).snd
  | RingOp.read m => (s.readCore m).snd
  | RingOp.readHandle h m => (s.readHandleCore h m).snd

/-- The state after a sequence of operations. -/
def applyOps (s : RingStore) : List RingOp → RingStore
  | [] => s
  | op :: rest => (s.applyOp op).applyOps rest

/-- The bytes one operation successfully appends to the store. -/
def opAdded (s : RingStore) : RingOp → List Nat
  | RingOp.add d => if (s.add d).fst then d else []
  | RingOp.forceAdd d => if (s.forceAdd d).fst then d else []
  | _ => []

/-- All bytes successfully appended over a sequence of operations. -/
def addedBytes : RingStore → List RingOp → List Nat
  | _, [] => []
  | s, op :: rest => s.opAdded op ++ (s.applyOp op).addedBytes rest

/-- The bytes one operation returns through cursor h. -/
def opReadH (s : RingStore) (h : Nat) : RingOp → List Nat
  | RingOp.readHandle h2 m => if h2 = h then (s.readHandleCore h2 m).fst else []
  | _ => []

/-- All bytes returned through cursor h over a sequence of operations,
in the order they were returned. -/
def readBytesH (h : Nat) : RingStore → List RingOp → List Nat
  | _, [] => []
  | s, op :: rest => s.opReadH h op ++ readBytesH h (s.applyOp op) rest

/-- The inductive invariant of a live store: created, unhandled reads
allowed, and no read pointer lags more than capacity - 1 behind the write
position (the one reserved byte is never touched). -/
def CursorsInv (C : Nat) (s : RingStore) : Prop :=
  s.created = true ∧ s.handledOnly = false ∧ s.capacity = C ∧
  s.r0 ≤ s.stream.length ∧ s.stream.length - s.r0 ≤ C - 1 ∧
  ∀ c ∈ s.cursors, ∀ r, c = some r → r ≤ s.stream.length ∧ s.stream.length - r ≤ C - 1

end RingStore

/-- The store of the C1 counterexample: capacity 10, one cursor taken, one
byte added, then consumed through the cursor only (the unhandled path has
not read it). -/
def c1state : RingStore :=
  (((((RingStore.createWithReadHandle 10 1).takeReadHandle).snd).add [7]).snd).applyOp
    (RingOp.readHandle 0 1)

/-- The store of the C2 counterexample just before the forced add:
capacity 4, cursor 0 taken at offset 0 (pending [10, 11, 12]), cursor 1
taken at offset 2 (pending [12]), unhandled pointer at 0; available size 0. -/
def c2pre : RingStore :=
  let s := RingStore.createWithReadHandle 4 2
  let s := (s.takeReadHandle).snd
  let s := (s.add [10, 11]).snd
  let s := (s.takeReadHandle).snd
  (s.add [12]).snd

/-- The C2 counterexample store after forcing one byte into the full store. -/
def c2post : RingStore := (c2pre.forceAdd [13]).snd

/-- C7 scenario, step 1: capacity 10 store with one cursor taken. -/
def c7s1 : RingStore := ((RingStore.createWithReadHandle 10 1).takeReadHandle).snd

/-- C7 scenario, step 2: the nine bytes 0..8 added. -/
def c7s2 : RingStore := (c7s1.add (List.range 9)).snd

/-- C7 scenario, step 3: the normal (unhandled) read into a buffer of ten
fill bytes. -/
def c7read : Nat × List Nat × RingStore := c7s2.read (List.replicate 10 90) 10

/-- C7 scenario, step 4: the handled read draining the cursor. -/
def c7readH : Nat × List Nat × RingStore :=
  c7read.snd.snd.readHandle 0 (List.replicate 10 90) 10

/-- What one synchronous send attempt observes while waiting: a response
matching the expected class/id, a NACK naming that class/id, or no
response within the timeout. -/
inductive RxOutcome where
  | found
  | nack
  | timeout
deriving Repr, DecidableEq

/-- The result a synchronous send-and-wait call surfaces. -/
inductive SendResult where
  | ok
  | errNack
  | errTimeout
deriving Repr, DecidableEq

/-- Modelled from the spec: the retry loop of the synchronous send-and-wait
path (the implementation of uGnssPrivateSendUbxMessage is absent from the
sources; spec.md section 4.5: "retried up to a configured retry count on
no-response timeout (not on NACK — NACK is terminal and reported
immediately)").  outcome i is what attempt i observes, the second argument
is the number of the next attempt and the third how many send attempts are
still allowed; returns the surfaced result and the number of sends
performed.  A found response or a NACK ends the loop at once; only a
timeout is retried. -/
def sendUbxAttempts (outcome : Nat → RxOutcome) : Nat → Nat → SendResult × Nat
  | _, 0 => (SendResult.errTimeout, 0)
  | i, n + 1 =>
    match outcome i with
    | RxOutcome.found => (SendResult.ok, 1)
    | RxOutcome.nack => (SendResult.errNack, 1)
    | RxOutcome.timeout =>
      let r := sendUbxAttempts outcome (i + 1) n
      (r.fst, r.snd + 1)

/-- Modelled from the spec: uGnssPrivateSendUbxMessage performs the initial
send plus at most retryCount retries. -/
def uGnssPrivateSendUbxMessage (outcome : Nat → RxOutcome) (retryCount : Nat) :
    SendResult × Nat :=
  sendUbxAttempts outcome 0 (retryCount + 1)

/-- Concrete two-cursor store for instantiating the C3 theorem: capacity 4,
both cursors just taken. -/
def c3s : RingStore :=
  { created := true, capacity := 4, handledOnly := false,
    stream := [], r0 := 0, cursors := [some 0, some 0] }

/-- A concrete operation sequence over c3s: an add, an unhandled read and
one read per cursor. -/
def c3ops : List RingOp :=
  [RingOp.add [1, 2], RingOp.read 2, RingOp.readHandle 0 2, RingOp.readHandle 1 2]

/-- A concrete store whose cursor 0 is the faster one (one pending byte
against two). -/
def c3t : RingStore :=
  { created := true, capacity := 4, handledOnly := false,
    stream := [5, 6], r0 := 2, cursors := [some 1, some 0] }

/-- A concrete store whose cursor 1 is the faster one. -/
def c3u : RingStore :=
  { created := true, capacity := 4, handledOnly := false,
    stream := [5, 6], r0 := 2, cursors := [some 0, some 1] }

/-! ## Helper lemmas -/

theorem getD_set_self (l : List (Option Nat)) (i : Nat) (v : Option Nat)
    (h : i < l.length) : (l.set i v).getD i none = v := by
  induction l generalizing i with
  | nil => simp at h
  | cons x xs ih =>
    cases i with
    | zero => rfl
    | succ j => simpa using ih j (by simpa using h)

theorem getD_set_ne (l : List (Option Nat)) (i j : Nat) (v : Option Nat)
    (h : i ≠ j) : (l.set i v).getD j none = l.getD j none := by
  induction l generalizing i j with
  | nil => rfl
  | cons x xs ih =>
    cases i with
    | zero =>
      cases j with
      | zero => exact absurd rfl h
      | succ j2 => rfl
    | succ i2 =>
      cases j with
      | zero => rfl
      | succ j2 => simpa using ih i2 j2 (by omega)

theorem getD_some_lt (l : List (Option Nat)) (i r : Nat)
    (h : l.getD i none = some r) : i < l.length := by
  induction l generalizing i with
  | nil => simp [List.getD] at h
  | cons x xs ih =>
    cases i with
    | zero => simp
    | succ j => simpa using ih j (by simpa using h)

theorem getD_mem (l : List (Option Nat)) (i r : Nat)
    (h : l.getD i none = some r) : some r ∈ l := by
  induction l generalizing i with
  | nil => simp [List.getD] at h
  | cons x xs ih =>
    cases i with
    | zero => simp_all
    | succ j => exact List.mem_cons_of_mem x (ih j (by simpa using h))

theorem le_foldr_max (L : List Nat) (x : Nat) (h : x ∈ L) :
    x ≤ L.foldr max 0 := by
  induction L with
  | nil => simp at h
  | cons y ys ih =>
    rcases List.mem_cons.mp h with h1 | h2
    · simp [h1, Nat.le_max_left]
    · exact le_trans (ih h2) (by simp [Nat.le_max_right])

theorem foldr_max_le (L : List Nat) (b : Nat) (h : ∀ x ∈ L, x ≤ b) :
    L.foldr max 0 ≤ b := by
  induction L with
  | nil => simp
  | cons y ys ih =>
    simp only [List.foldr_cons]
    exact max_le (h y (by simp)) (ih (fun x hx => h x (List.mem_cons_of_mem y hx)))

theorem lag_mem_lags (s : RingStore) (h r : Nat)
    (hcur : s.cursors.getD h none = some r) :
    s.stream.length - r ∈ s.lags := by
  unfold RingStore.lags
  refine List.mem_cons_of_mem _ (List.mem_filterMap.mpr ⟨some r, getD_mem _ _ _ hcur, rfl⟩)

theorem availableSize_le (s : RingStore) : s.availableSize ≤ s.capacity - 1 := by
  unfold RingStore.availableSize
  split
  · exact Nat.sub_le _ _
  · exact Nat.zero_le _

/-! ## Claim theorems -/

/-- C4: for every created RingStore of capacity C, uRingBufferForceAdd of
C - 1 bytes always returns success (whatever the current contents, full
buffer included), and both uRingBufferForceAdd and uRingBufferAdd of C
bytes always return failure. -/
theorem forceAdd_capacity_bounds (s : RingStore) (d1 d2 d3 : List Nat)
    (hc : s.created = true) (hcap : 1 ≤ s.capacity)
    (h1 : d1.length = s.capacity - 1) (h2 : d2.length = s.capacity)
    (h3 : d3.length = s.capacity) :
    (s.forceAdd d1).fst = true ∧ (s.forceAdd d2).fst = false ∧
    (s.add d3).fst = false := by
  have havail := availableSize_le s
  refine ⟨?_, ?_, ?_⟩
  · simp only [RingStore.forceAdd, hc, Bool.not_true, Bool.false_eq_true, if_false]
    rw [if_neg (by omega)]
  · simp only [RingStore.forceAdd, hc, Bool.not_true, Bool.false_eq_true, if_false]
    rw [if_pos (by omega)]
  · simp only [RingStore.add, hc, Bool.not_true, Bool.false_eq_true, if_false]
    rw [if_pos (by omega)]

/-- Witness for C4 at a concrete store: capacity 4, one byte pending. -/
theorem forceAdd_capacity_bounds_witness :
    (((RingStore.create 4).add [5]).snd.forceAdd [1, 2, 3]).fst = true ∧
    (((RingStore.create 4).add [5]).snd.forceAdd [1, 2, 3, 4]).fst = false ∧
    (((RingStore.create 4).add [5]).snd.add [1, 2, 3, 4]).fst = false :=
  forceAdd_capacity_bounds (((RingStore.create 4).add [5]).snd)
    [1, 2, 3] [1, 2, 3, 4] [1, 2, 3, 4] (by decide) (by decide) (by decide)
    (by decide) (by decide)

/-- C9: a uRingBufferForceAdd call whose payload is at least the capacity
fails and leaves the RingStore completely unchanged: the result state is the
argument state, so every observation (buffer contents, every cursor's data
size, the unhandled data size, available size, subsequent reads) is exactly
as without the call. -/
theorem forceAdd_too_big_leaves_unchanged (s : RingStore) (d out : List Nat)
    (h maxLen : Nat) (hbig : s.capacity ≤ d.length) :
    s.forceAdd d = (false, s) ∧
    (s.forceAdd d).snd.stream = s.stream ∧
    (s.forceAdd d).snd.dataSize = s.dataSize ∧
    (s.forceAdd d).snd.dataSizeHandle h = s.dataSizeHandle h ∧
    (s.forceAdd d).snd.availableSize = s.availableSize ∧
    (s.forceAdd d).snd.read out maxLen = s.read out maxLen ∧
    (s.forceAdd d).snd.readHandle h out maxLen = s.readHandle h out maxLen := by
  have hfail : s.forceAdd d = (false, s) := by
    unfold RingStore.forceAdd
    cases hcr : s.created with
    | false => simp [hcr]
    | true => simp [hcr, hbig]
  rw [hfail]
  exact ⟨rfl, rfl, rfl, rfl, rfl, rfl, rfl⟩

/-- Witness for C9: forcing 4 bytes into a capacity-4 store with a pending
byte fails and changes nothing. -/
theorem forceAdd_too_big_leaves_unchanged_witness :
    ((RingStore.create 4).add [5]).snd.forceAdd [1, 2, 3, 4]
      = (false, ((RingStore.create 4).add [5]).snd) ∧
    (((RingStore.create 4).add [5]).snd.forceAdd [1, 2, 3, 4]).snd.stream
      = ((RingStore.create 4).add [5]).snd.stream ∧
    (((RingStore.create 4).add [5]).snd.forceAdd [1, 2, 3, 4]).snd.dataSize
      = ((RingStore.create 4).add [5]).snd.dataSize ∧
    (((RingStore.create 4).add [5]).snd.forceAdd [1, 2, 3, 4]).snd.dataSizeHandle 0
      = ((RingStore.create 4).add [5]).snd.dataSizeHandle 0 ∧
    (((RingStore.create 4).add [5]).snd.forceAdd [1, 2, 3, 4]).snd.availableSize
      = ((RingStore.create 4).add [5]).snd.availableSize ∧
    (((RingStore.create 4).add [5]).snd.forceAdd [1, 2, 3, 4]).snd.read [9, 9] 2
      = ((RingStore.create 4).add [5]).snd.read [9, 9] 2 ∧
    (((RingStore.create 4).add [5]).snd.forceAdd [1, 2, 3, 4]).snd.readHandle 0 [9, 9] 2
      = ((RingStore.create 4).add [5]).snd.readHandle 0 [9, 9] 2 :=
  forceAdd_too_big_leaves_unchanged (((RingStore.create 4).add [5]).snd)
    [1, 2, 3, 4] [9, 9] 0 2 (by decide)

/-- C6: every operation on a store that was never created (or was deleted,
which clears the created flag, as the last conjunct states) returns zero or
a failure indication, leaves the store as is and leaves the caller's output
buffer untouched. -/
theorem uncreated_ops_fail (s t : RingStore) (d out : List Nat) (h maxLen : Nat)
    (hc : s.created = false) :
    s.add d = (false, s) ∧
    s.forceAdd d = (false, s) ∧
    s.dataSize = 0 ∧
    s.dataSizeHandle h = 0 ∧
    s.availableSize = 0 ∧
    s.read out maxLen = (0, out, s) ∧
    s.readHandle h out maxLen = (0, out, s) ∧
    s.takeReadHandle = (none, s) ∧
    (t.delete).created = false := by
  refine ⟨?_, ?_, ?_, ?_, ?_, ?_, ?_, ?_, rfl⟩
  · simp [RingStore.add, hc]
  · simp [RingStore.forceAdd, hc]
  · simp [RingStore.dataSize, hc]
  · simp [RingStore.dataSizeHandle, hc]
  · simp [RingStore.availableSize, hc]
  · simp [RingStore.read, RingStore.readCore, hc]
  · simp [RingStore.readHandle, RingStore.readHandleCore, hc]
  · simp [RingStore.takeReadHandle, hc]

/-- Witness for C6: the zeroed, never-created store and a just-deleted
store. -/
theorem uncreated_ops_fail_witness :
    RingStore.uninit.add [1, 2] = (false, RingStore.uninit) ∧
    RingStore.uninit.forceAdd [1, 2] = (false, RingStore.uninit) ∧
    RingStore.uninit.dataSize = 0 ∧
    RingStore.uninit.dataSizeHandle 1 = 0 ∧
    RingStore.uninit.availableSize = 0 ∧
    RingStore.uninit.read [9, 9] 2 = (0, [9, 9], RingStore.uninit) ∧
    RingStore.uninit.readHandle 1 [9, 9] 2 = (0, [9, 9], RingStore.uninit) ∧
    RingStore.uninit.takeReadHandle = (none, RingStore.uninit) ∧
    ((RingStore.create 4).delete).created = false :=
  uncreated_ops_fail RingStore.uninit (RingStore.create 4) [1, 2] [9, 9] 1 2 rfl

/-- C7: the capacity-10 scenario (9 usable bytes): with one cursor taken,
adding the nine bytes 0..8 leaves no available space; the normal
(unhandled) read returns exactly those nine bytes in order; the available
size stays 0 until the handled cursor reads and is back to 9 once the
handled cursor has fully drained. -/
theorem scenario_capacity_ten :
    ((RingStore.createWithReadHandle 10 1).takeReadHandle).fst = some 0 ∧
    (c7s1.add (List.range 9)).fst = true ∧
    c7s2.availableSize = 0 ∧
    c7read.fst = 9 ∧
    c7read.snd.fst.take 9 = List.range 9 ∧
    c7read.snd.snd.availableSize = 0 ∧
    c7read.snd.snd.dataSizeHandle 0 = 9 ∧
    c7readH.fst = 9 ∧
    c7readH.snd.fst.take 9 = List.range 9 ∧
    c7readH.snd.snd.availableSize = 9 := by
  decide

theorem readCore_fst_le (s : RingStore) (maxLen : Nat) :
    (s.readCore maxLen).fst.length ≤ maxLen := by
  unfold RingStore.readCore
  split
  · simp only [List.length_take]
    omega
  · simp

theorem readHandleCore_fst_le (s : RingStore) (h maxLen : Nat) :
    (s.readHandleCore h maxLen).fst.length ≤ maxLen := by
  unfold RingStore.readHandleCore
  split
  · split
    · simp only [List.length_take]
      omega
    · simp
  · simp

theorem splice_drop (bytes out : List Nat) :
    (bytes ++ out.drop bytes.length).drop bytes.length = out.drop bytes.length :=
  List.drop_left _ _

theorem splice_length (bytes out : List Nat) (h : bytes.length ≤ out.length) :
    (bytes ++ out.drop bytes.length).length = out.length := by
  simp only [List.length_append, List.length_drop]
  omega

/-- C10: a read via uRingBufferRead or uRingBufferReadHandle that returns n
bytes into a caller buffer of maxLen ≤ buffer-size bytes writes only the
first n bytes of the caller's buffer: its length is unchanged and every
byte from offset n on keeps its prior value (n = 0 included). -/
theorem read_frame_effect (s : RingStore) (out : List Nat) (h maxLen : Nat)
    (hlen : maxLen ≤ out.length) :
    (s.read out maxLen).fst ≤ maxLen ∧
    (s.read out maxLen).snd.fst.length = out.length ∧
    (s.read out maxLen).snd.fst.drop (s.read out maxLen).fst
      = out.drop (s.read out maxLen).fst ∧
    (s.readHandle h out maxLen).fst ≤ maxLen ∧
    (s.readHandle h out maxLen).snd.fst.length = out.length ∧
    (s.readHandle h out maxLen).snd.fst.drop (s.readHandle h out maxLen).fst
      = out.drop (s.readHandle h out maxLen).fst := by
  have h1 := readCore_fst_le s maxLen
  have h2 := readHandleCore_fst_le s h maxLen
  refine ⟨h1, ?_, ?_, h2, ?_, ?_⟩
  · exact splice_length _ _ (le_trans h1 hlen)
  · exact splice_drop _ _
  · exact splice_length _ _ (le_trans h2 hlen)
  · exact splice_drop _ _

/-- Witness for C10: a two-byte read out of the capacity-10 scenario store,
and a zero-byte handled read, both leave the tail of the caller's buffer
alone. -/
theorem read_frame_effect_witness :
    (c7s2.read [90, 90, 90] 2).fst ≤ 2 ∧
    (c7s2.read [90, 90, 90] 2).snd.fst.length = 3 ∧
    (c7s2.read [90, 90, 90] 2).snd.fst.drop (c7s2.read [90, 90, 90] 2).fst
      = [90, 90, 90].drop (c7s2.read [90, 90, 90] 2).fst ∧
    (c7s2.readHandle 1 [90, 90, 90] 2).fst ≤ 2 ∧
    (c7s2.readHandle 1 [90, 90, 90] 2).snd.fst.length = 3 ∧
    (c7s2.readHandle 1 [90, 90, 90] 2).snd.fst.drop
        (c7s2.readHandle 1 [90, 90, 90] 2).fst
      = [90, 90, 90].drop (c7s2.readHandle 1 [90, 90, 90] 2).fst :=
  read_frame_effect c7s2 [90, 90, 90] 1 2 (by decide)

/-- C5: with handled-reads-only set, after adding N bytes that fit, the
unhandled path reports zero data and reads zero bytes (leaving the caller's
buffer and the store untouched) while a taken, caught-up cursor reports all
N bytes and reads exactly them. -/
theorem handled_only_unhandled_zero (s : RingStore) (h maxLen maxLen2 : Nat)
    (data out : List Nat)
    (hc : s.created = true) (hho : s.handledOnly = true)
    (hcur : s.cursors.getD h none = some s.stream.length)
    (hfit : data.length ≤ s.availableSize)
    (hml : data.length ≤ maxLen2) :
    (s.add data).fst = true ∧
    (s.add data).snd.dataSize = 0 ∧
    (s.add data).snd.read out maxLen = (0, out, (s.add data).snd) ∧
    (s.add data).snd.dataSizeHandle h = data.length ∧
    ((s.add data).snd.readHandleCore h maxLen2).fst = data := by
  have hadd : s.add data
      = (true, { s with stream := s.stream ++ data,
                        r0 := s.stream.length + data.length }) := by
    unfold RingStore.add
    rw [if_neg (by simp [hc]), if_neg (by omega), if_pos hho]
  rw [hadd]
  refine ⟨rfl, ?_, ?_, ?_, ?_⟩
  · simp [RingStore.dataSize, hho]
  · simp [RingStore.read, RingStore.readCore, hho]
  · simp only [RingStore.dataSizeHandle, hc, if_true, hcur, List.length_append]
    omega
  · simp only [RingStore.readHandleCore, hc, if_true, hcur, List.length_append]
    rw [List.drop_left]
    have hmin : min maxLen2 (s.stream.length + data.length - s.stream.length)
        = data.length := by omega
    rw [hmin, List.take_length]

/-- Witness for C5: capacity 10, handled-reads-only, cursor 0 taken, three
bytes added. -/
theorem handled_only_unhandled_zero_witness :
    (((((RingStore.createWithReadHandle 10 1).setReadRequiresHandle
        true).takeReadHandle).snd).add [3, 4, 5]).fst = true ∧
    (((((RingStore.createWithReadHandle 10 1).setReadRequiresHandle
        true).takeReadHandle).snd).add [3, 4, 5]).snd.dataSize = 0 ∧
    (((((RingStore.createWithReadHandle 10 1).setReadRequiresHandle
        true).takeReadHandle).snd).add [3, 4, 5]).snd.read [9, 9] 2
      = (0, [9, 9],
         (((((RingStore.createWithReadHandle 10 1).setReadRequiresHandle
             true).takeReadHandle).snd).add [3, 4, 5]).snd) ∧
    (((((RingStore.createWithReadHandle 10 1).setReadRequiresHandle
        true).takeReadHandle).snd).add [3, 4, 5]).snd.dataSizeHandle 0 = 3 ∧
    ((((((RingStore.createWithReadHandle 10 1).setReadRequiresHandle
        true).takeReadHandle).snd).add [3, 4, 5]).snd.readHandleCore 0 5).fst
      = [3, 4, 5] :=
  handled_only_unhandled_zero
    ((((RingStore.createWithReadHandle 10 1).setReadRequiresHandle
       true).takeReadHandle).snd) 0 2 5 [3, 4, 5] [9, 9]
    (by decide) (by decide) (by decide) (by decide) (by decide)

/-- Counterexample to C1 as stated: capacity 10, exactly one cursor taken,
one byte added and then consumed through the cursor only.  The unhandled
read position still holds the byte, so availableSize() is 8 while the
cursor's dataSizeHandle is 0: their sum is 8, not capacity - 1 = 9. -/
theorem availableSize_plus_cursor_counterexample :
    c1state.created = true ∧
    c1state.capacity = 10 ∧
    c1state.cursors = [some 1] ∧
    c1state.availableSize = 8 ∧
    c1state.dataSizeHandle 0 = 0 ∧
    c1state.availableSize + c1state.dataSizeHandle 0 ≠ c1state.capacity - 1 := by
  decide

/-- Counterexample to C2 as stated: capacity 4, cursor 0 pending
[10, 11, 12], cursor 1 pending [12], no space left.  Forcing in [13] must
evict N = 1 oldest byte (cursor 0 indeed skips exactly one byte), but
cursor 1, which was not lagging, skips nothing: its subsequent reads return
[12, 13], not its pre-eviction sequence with its first N = 1 unread bytes
skipped (which would be [13]). -/
theorem forceAdd_uniform_skip_counterexample :
    c2pre.availableSize = 0 ∧
    (c2pre.forceAdd [13]).fst = true ∧
    c2pre.unreadSeq 0 = [10, 11, 12] ∧
    c2pre.unreadSeq 1 = [12] ∧
    c2post.unreadSeq 0 = [11, 12, 13] ∧
    c2post.unreadSeq 1 = [12, 13] ∧
    c2post.unreadSeq 1 ≠ (c2pre.unreadSeq 1 ++ [13]).drop 1 := by
  decide

theorem sendUbxAttempts_nack (outcome : Nat → RxOutcome) :
    ∀ (n i k : Nat), k < n →
    (∀ j, j < k → outcome (i + j) = RxOutcome.timeout) →
    outcome (i + k) = RxOutcome.nack →
    sendUbxAttempts outcome i n = (SendResult.errNack, k + 1) := by
  intro n
  induction n with
  | zero =>
    intro i k hk
    omega
  | succ m ih =>
    intro i k hk hts hn
    cases k with
    | zero =>
      have h0 : outcome i = RxOutcome.nack := by simpa using hn
      simp [sendUbxAttempts, h0]
    | succ k2 =>
      have ht0 : outcome i = RxOutcome.timeout := by
        simpa using hts 0 (by omega)
      have hrec := ih (i + 1) k2 (by omega)
        (fun j hj => by
          have hx := hts (j + 1) (by omega)
          have harith : i + (j + 1) = i + 1 + j := by omega
          rwa [harith] at hx)
        (by
          have harith : i + (k2 + 1) = i + 1 + k2 := by omega
          rwa [harith] at hn)
      simp [sendUbxAttempts, ht0, hrec]

theorem sendUbxAttempts_timeout (outcome : Nat → RxOutcome) :
    ∀ (n i : Nat), (∀ j, j < n → outcome (i + j) = RxOutcome.timeout) →
    sendUbxAttempts outcome i n = (SendResult.errTimeout, n) := by
  intro n
  induction n with
  | zero =>
    intro i _
    rfl
  | succ m ih =>
    intro i hts
    have ht0 : outcome i = RxOutcome.timeout := by simpa using hts 0 (by omega)
    have hrec := ih (i + 1)
      (fun j hj => by
        have hx := hts (j + 1) (by omega)
        have harith : i + (j + 1) = i + 1 + j := by omega
        rwa [harith] at hx)
    simp [sendUbxAttempts, ht0, hrec]

/-- C8: in the synchronous send-and-wait loop expecting a specific class/id,
if attempt k (k ≤ retryCount) observes a NACK naming that class/id after
only timeouts, the call surfaces the distinct NACK error — not a timeout —
having performed exactly k + 1 sends, so the send is not retried after the
NACK; and when every attempt times out, the send is retried up to the
configured retry count (retryCount + 1 sends) and only then reports the
timeout. -/
theorem nack_terminal_not_retried (outcome outcome2 : Nat → RxOutcome)
    (retryCount k : Nat) (hk : k ≤ retryCount)
    (hts : ∀ j, j < k → outcome j = RxOutcome.timeout)
    (hn : outcome k = RxOutcome.nack)
    (hto : ∀ j, j ≤ retryCount → outcome2 j = RxOutcome.timeout) :
    uGnssPrivateSendUbxMessage outcome retryCount = (SendResult.errNack, k + 1) ∧
    uGnssPrivateSendUbxMessage outcome2 retryCount
      = (SendResult.errTimeout, retryCount + 1) := by
  constructor
  · exact sendUbxAttempts_nack outcome (retryCount + 1) 0 k (by omega)
      (fun j hj => by simpa using hts j hj) (by simpa using hn)
  · exact sendUbxAttempts_timeout outcome2 (retryCount + 1) 0
      (fun j hj => by simpa using hto j (by omega))

/-- Witness for C8: retry count 2; a NACK on the second attempt stops the
loop at two sends; all-timeouts runs the full three sends. -/
theorem nack_terminal_not_retried_witness :
    uGnssPrivateSendUbxMessage
        (fun j => if j < 1 then RxOutcome.timeout else RxOutcome.nack) 2
      = (SendResult.errNack, 2) ∧
    uGnssPrivateSendUbxMessage (fun _ => RxOutcome.timeout) 2
      = (SendResult.errTimeout, 3) :=
  nack_terminal_not_retried
    (fun j => if j < 1 then RxOutcome.timeout else RxOutcome.nack)
    (fun _ => RxOutcome.timeout) 2 1 (by omega)
    (fun j hj => by simp [hj])
    (by simp)
    (fun j _ => rfl)

theorem getD_map_optionMap (l : List (Option Nat)) (f : Nat → Nat) (i : Nat) :
    (l.map (Option.map f)).getD i none = Option.map f (l.getD i none) := by
  induction l generalizing i with
  | nil => rfl
  | cons x xs ih =>
    cases i with
    | zero => rfl
    | succ j => simpa using ih j

/-- C2 amended: when uRingBufferForceAdd succeeds, each taken cursor is
advanced only if its read position would fall behind the retained window
(the capacity - 1 bytes ending at the new write position), and then by
exactly the overrun: its subsequent reads return the byte sequence it would
have read before the eviction (its pending bytes followed by the new data)
with its first max(0, pending + len - (capacity - 1)) bytes skipped — zero
for a cursor that was not lagging — never a stale byte (its position is
never left below the retained window's start) and never a duplicate. -/
theorem forceAdd_cursor_advance_exact (s : RingStore) (data : List Nat) (h r : Nat)
    (hc : s.created = true)
    (hlen : data.length < s.capacity)
    (hcur : s.cursors.getD h none = some r)
    (hr : r ≤ s.stream.length) :
    (s.forceAdd data).fst = true ∧
    (s.forceAdd data).snd.cursors.getD h none
      = some (max r (s.stream.length + data.length - (s.capacity - 1))) ∧
    (s.forceAdd data).snd.unreadSeq h
      = (s.unreadSeq h ++ data).drop
          ((s.stream.length - r) + data.length - (s.capacity - 1)) ∧
    s.stream.length + data.length - (s.capacity - 1)
      ≤ max r (s.stream.length + data.length - (s.capacity - 1)) := by
  have hforce : s.forceAdd data
      = (true,
         { s with stream := s.stream ++ data,
                  r0 := if s.handledOnly then s.stream.length + data.length
                        else max s.r0 (s.stream.length + data.length - (s.capacity - 1)),
                  cursors := s.cursors.map (Option.map
                    (fun x => max x (s.stream.length + data.length - (s.capacity - 1)))) }) := by
    unfold RingStore.forceAdd
    rw [if_neg (by simp [hc]), if_neg (by omega)]
  rw [hforce]
  have hgd : (s.cursors.map (Option.map
      (fun x => max x (s.stream.length + data.length - (s.capacity - 1))))).getD h none
      = some (max r (s.stream.length + data.length - (s.capacity - 1))) := by
    rw [getD_map_optionMap, hcur]
    rfl
  refine ⟨rfl, hgd, ?_, le_max_right _ _⟩
  show (RingStore.unreadSeq _ h) = _
  unfold RingStore.unreadSeq
  simp only [hgd, hcur]
  have hmax : max r (s.stream.length + data.length - (s.capacity - 1))
      = r + ((s.stream.length - r) + data.length - (s.capacity - 1)) := by
    omega
  rw [hmax, ← List.drop_drop, List.drop_append_of_le_length hr]

/-- Witness for C2's amended theorem: the c2pre store, forcing [13],
observed through cursor 0 (which is advanced by exactly one byte). -/
theorem forceAdd_cursor_advance_exact_witness :
    (c2pre.forceAdd [13]).fst = true ∧
    (c2pre.forceAdd [13]).snd.cursors.getD 0 none
      = some (max 0 (c2pre.stream.length + [13].length - (c2pre.capacity - 1))) ∧
    (c2pre.forceAdd [13]).snd.unreadSeq 0
      = (c2pre.unreadSeq 0 ++ [13]).drop
          ((c2pre.stream.length - 0) + [13].length - (c2pre.capacity - 1)) ∧
    c2pre.stream.length + [13].length - (c2pre.capacity - 1)
      ≤ max 0 (c2pre.stream.length + [13].length - (c2pre.capacity - 1)) :=
  forceAdd_cursor_advance_exact c2pre [13] 0 0 (by decide) (by decide) (by decide)
    (by decide)

theorem mem_lags_of_mem_cursors (s : RingStore) (r : Nat) (hm : some r ∈ s.cursors) :
    s.stream.length - r ∈ s.lags :=
  List.mem_cons_of_mem _ (List.mem_filterMap.mpr ⟨some r, hm, rfl⟩)

theorem lag0_le_usedSize (s : RingStore) :
    s.stream.length - s.r0 ≤ s.usedSize :=
  le_foldr_max _ _ (List.mem_cons_self _ _)

theorem lag_le_usedSize (s : RingStore) (r : Nat) (hm : some r ∈ s.cursors) :
    s.stream.length - r ≤ s.usedSize :=
  le_foldr_max _ _ (mem_lags_of_mem_cursors s r hm)

theorem usedSize_le_of_inv (C : Nat) (s : RingStore)
    (hInv : RingStore.CursorsInv C s) : s.usedSize ≤ C - 1 := by
  obtain ⟨_, _, _, _, hr0lag, hcurs⟩ := hInv
  apply foldr_max_le
  intro x hx
  rcases List.mem_cons.mp hx with h0 | hrest
  · omega
  · obtain ⟨c, hcm, hmap⟩ := List.mem_filterMap.mp hrest
    cases c with
    | none => simp at hmap
    | some ρ =>
      obtain ⟨_, hb⟩ := hcurs _ hcm ρ rfl
      simp only [Option.map_some', Option.some.injEq] at hmap
      omega

theorem add_cursors (s : RingStore) (d : List Nat) :
    (s.add d).snd.cursors = s.cursors := by
  unfold RingStore.add
  split
  · rfl
  · split
    · rfl
    · rfl

theorem readCore_cursors (s : RingStore) (m : Nat) :
    (s.readCore m).snd.cursors = s.cursors := by
  unfold RingStore.readCore
  split
  · rfl
  · rfl

theorem add_state_eq (s : RingStore) (d : List Nat)
    (hc : s.created = true) (hho : s.handledOnly = false)
    (hfit : ¬ s.availableSize < d.length) :
    s.add d = (true, { s with stream := s.stream ++ d }) := by
  unfold RingStore.add
  rw [if_neg (by simp [hc]), if_neg hfit, if_neg (by simp [hho])]

theorem forceAdd_state_eq (s : RingStore) (d : List Nat)
    (hc : s.created = true) (hho : s.handledOnly = false)
    (hbig : ¬ s.capacity ≤ d.length) :
    s.forceAdd d
      = (true,
         { s with stream := s.stream ++ d,
                  r0 := max s.r0 (s.stream.length + d.length - (s.capacity - 1)),
                  cursors := s.cursors.map (Option.map
                    (fun x => max x (s.stream.length + d.length - (s.capacity - 1)))) }) := by
  unfold RingStore.forceAdd
  rw [if_neg (by simp [hc]), if_neg hbig, if_neg (by simp [hho])]

theorem readCore_state_eq (s : RingStore) (m : Nat)
    (hc : s.created = true) (hho : s.handledOnly = false) :
    s.readCore m
      = ((s.stream.drop s.r0).take (min m (s.stream.length - s.r0)),
         { s with r0 := s.r0 + min m (s.stream.length - s.r0) }) := by
  unfold RingStore.readCore
  rw [if_pos (by simp [hc, hho])]

theorem readHandleCore_state_eq (s : RingStore) (h2 m ρ : Nat)
    (hc : s.created = true) (hg : s.cursors.getD h2 none = some ρ) :
    s.readHandleCore h2 m
      = ((s.stream.drop ρ).take (min m (s.stream.length - ρ)),
         { s with cursors :=
             s.cursors.set h2 (some (ρ + min m (s.stream.length - ρ))) }) := by
  unfold RingStore.readHandleCore
  rw [if_pos hc, hg]

theorem readHandleCore_none_eq (s : RingStore) (h2 m : Nat)
    (hc : s.created = true) (hg : s.cursors.getD h2 none = none) :
    s.readHandleCore h2 m = ([], s) := by
  unfold RingStore.readHandleCore
  rw [if_pos hc, hg]

theorem add_fail_eq (s : RingStore) (d : List Nat)
    (hfit : s.availableSize < d.length) : s.add d = (false, s) := by
  unfold RingStore.add
  cases hcr : s.created with
  | false => simp [hcr]
  | true =>
    rw [if_neg (by simp [hcr]), if_pos hfit]

theorem forceAdd_fail_eq (s : RingStore) (d : List Nat)
    (hbig : s.capacity ≤ d.length) : s.forceAdd d = (false, s) := by
  unfold RingStore.forceAdd
  cases hcr : s.created with
  | false => simp [hcr]
  | true =>
    rw [if_neg (by simp [hcr]), if_pos hbig]

theorem cursorsInv_applyOp (C : Nat) (s : RingStore) (op : RingOp)
    (hInv : RingStore.CursorsInv C s) : RingStore.CursorsInv C (s.applyOp op) := by
  obtain ⟨hc, hho, hcap, hr0le, hr0lag, hcurs⟩ := hInv
  have hav : s.availableSize = C - 1 - s.usedSize := by
    unfold RingStore.availableSize
    rw [if_pos hc, hcap]
  cases op with
  | add d =>
    show RingStore.CursorsInv C (s.add d).snd
    by_cases hfit : s.availableSize < d.length
    · rw [add_fail_eq s d hfit]
      exact ⟨hc, hho, hcap, hr0le, hr0lag, hcurs⟩
    · rw [add_state_eq s d hc hho hfit]
      have hl0 := lag0_le_usedSize s
      refine ⟨hc, hho, hcap, ?_, ?_, ?_⟩
      · simp only [List.length_append]
        omega
      · simp only [List.length_append]
        omega
      · intro c hcm ρ hceq
        subst hceq
        have hlg := lag_le_usedSize s ρ hcm
        obtain ⟨hb1, hb2⟩ := hcurs _ hcm ρ rfl
        simp only [List.length_append]
        omega
  | forceAdd d =>
    show RingStore.CursorsInv C (s.forceAdd d).snd
    by_cases hbig : s.capacity ≤ d.length
    · rw [forceAdd_fail_eq s d hbig]
      exact ⟨hc, hho, hcap, hr0le, hr0lag, hcurs⟩
    · rw [forceAdd_state_eq s d hc hho hbig]
      refine ⟨hc, hho, hcap, ?_, ?_, ?_⟩
      · simp only [List.length_append]
        omega
      · simp only [List.length_append]
        omega
      · intro c hcm ρ hceq
        simp only [List.length_append]
        obtain ⟨c0, hc0m, hc0map⟩ := List.mem_map.mp hcm
        cases c0 with
        | none =>
          rw [← hc0map] at hceq
          simp at hceq
        | some ρ0 =>
          obtain ⟨hb1, hb2⟩ := hcurs _ hc0m ρ0 rfl
          rw [← hc0map] at hceq
          simp only [Option.map_some', Option.some.injEq] at hceq
          omega
  | read m =>
    show RingStore.CursorsInv C (s.readCore m).snd
    rw [readCore_state_eq s m hc hho]
    refine ⟨hc, hho, hcap, ?_, ?_, hcurs⟩
    · show s.r0 + min m (s.stream.length - s.r0) ≤ s.stream.length
      omega
    · show s.stream.length - (s.r0 + min m (s.stream.length - s.r0)) ≤ C - 1
      omega
  | readHandle h2 m =>
    show RingStore.CursorsInv C (s.readHandleCore h2 m).snd
    cases hg : s.cursors.getD h2 none with
    | none =>
      rw [readHandleCore_none_eq s h2 m hc hg]
      exact ⟨hc, hho, hcap, hr0le, hr0lag, hcurs⟩
    | some ρ =>
      obtain ⟨hb1, hb2⟩ := hcurs _ (getD_mem _ _ _ hg) ρ rfl
      rw [readHandleCore_state_eq s h2 m ρ hc hg]
      refine ⟨hc, hho, hcap, hr0le, hr0lag, ?_⟩
      intro c hcm ρ2 hceq
      rcases List.mem_or_eq_of_mem_set hcm with hin | heqv
      · exact hcurs c hin ρ2 hceq
      · rw [heqv] at hceq
        simp only [Option.some.injEq] at hceq
        constructor
        · show ρ2 ≤ s.stream.length
          omega
        · show s.stream.length - ρ2 ≤ C - 1
          omega

theorem cursorsInv_applyOps (C : Nat) (s : RingStore) (ops : List RingOp)
    (hInv : RingStore.CursorsInv C s) : RingStore.CursorsInv C (s.applyOps ops) := by
  induction ops generalizing s with
  | nil => exact hInv
  | cons op rest ih => exact ih _ (cursorsInv_applyOp C s op hInv)

theorem oneCursor_shape_applyOp (s : RingStore) (op : RingOp)
    (hs : ∃ r, s.cursors = [some r]) : ∃ q, (s.applyOp op).cursors = [some q] := by
  obtain ⟨r, hr⟩ := hs
  cases op with
  | add d =>
    show ∃ q, (s.add d).snd.cursors = [some q]
    rw [add_cursors, hr]
    exact ⟨r, rfl⟩
  | forceAdd d =>
    show ∃ q, (s.forceAdd d).snd.cursors = [some q]
    unfold RingStore.forceAdd
    split
    · exact ⟨r, hr⟩
    · split
      · exact ⟨r, hr⟩
      · exact ⟨max r (s.stream.length + d.length - (s.capacity - 1)), by simp [hr]⟩
  | read m =>
    show ∃ q, (s.readCore m).snd.cursors = [some q]
    rw [readCore_cursors, hr]
    exact ⟨r, rfl⟩
  | readHandle h2 m =>
    show ∃ q, (s.readHandleCore h2 m).snd.cursors = [some q]
    unfold RingStore.readHandleCore
    split
    · cases hg : s.cursors.getD h2 none with
      | none =>
        simp only [hg]
        exact ⟨r, hr⟩
      | some ρ =>
        simp only [hg]
        cases h2 with
        | zero =>
          refine ⟨ρ + min m (s.stream.length - ρ), ?_⟩
          rw [hr]
          rfl
        | succ j =>
          refine ⟨r, ?_⟩
          rw [hr]
          rfl
    · exact ⟨r, hr⟩

theorem oneCursor_shape_applyOps (s : RingStore) (ops : List RingOp)
    (hs : ∃ r, s.cursors = [some r]) : ∃ q, (s.applyOps ops).cursors = [some q] := by
  induction ops generalizing s with
  | nil => exact hs
  | cons op rest ih => exact ih _ (oneCursor_shape_applyOp s op hs)

/-- C1 amended: from a freshly created store of capacity C with exactly one
read cursor taken and no other cursors, after any sequence of add, forced
add and read operations, uRingBufferAvailableSize() plus the LARGER of the
unhandled pending count (uRingBufferDataSize) and the cursor's pending
count (uRingBufferDataSizeHandle) equals C - 1: one byte of capacity is
permanently reserved.  (The sum with the cursor's count alone equals C - 1
exactly when the cursor is the laggard; the unhandled read position also
holds space, which the counterexample exhibits.) -/
theorem available_plus_slowest_eq_capacity_sub_one (C : Nat) (ops : List RingOp) :
    (((RingStore.createWithReadHandle C 1).takeReadHandle).snd.applyOps ops).availableSize
      + max (((RingStore.createWithReadHandle C 1).takeReadHandle).snd.applyOps ops).dataSize
            ((((RingStore.createWithReadHandle C 1).takeReadHandle).snd.applyOps ops).dataSizeHandle 0)
      = C - 1 := by
  have hs0c : (((RingStore.createWithReadHandle C 1).takeReadHandle).snd).cursors
      = [some 0] := rfl
  have hs0s : (((RingStore.createWithReadHandle C 1).takeReadHandle).snd).stream
      = ([] : List Nat) := rfl
  have hs0r : (((RingStore.createWithReadHandle C 1).takeReadHandle).snd).r0 = 0 := rfl
  have hInv0 : RingStore.CursorsInv C ((RingStore.createWithReadHandle C 1).takeReadHandle).snd := by
    refine ⟨rfl, rfl, rfl, ?_, ?_, ?_⟩
    · rw [hs0s, hs0r]
      simp
    · rw [hs0s, hs0r]
      simp
    · intro c hcm ρ hceq
      rw [hs0c] at hcm
      simp only [List.mem_singleton] at hcm
      rw [hcm] at hceq
      simp only [Option.some.injEq] at hceq
      rw [hs0s]
      simp only [List.length_nil]
      omega
  have hInv := cursorsInv_applyOps C _ ops hInv0
  obtain ⟨q, hq⟩ := oneCursor_shape_applyOps _ ops ⟨0, hs0c⟩
  obtain ⟨hc, hho, hcap, hr0le, hr0lag, hcurs⟩ := hInv
  obtain ⟨hqle, hqlag⟩ := hcurs (some q) (by rw [hq]; exact List.mem_singleton_self _) q rfl
  set t := ((RingStore.createWithReadHandle C 1).takeReadHandle).snd.applyOps ops with ht
  have husd : t.usedSize
      = max (t.stream.length - t.r0) (t.stream.length - q) := by
    unfold RingStore.usedSize RingStore.lags
    rw [hq]
    simp [List.filterMap]
  have hds : t.dataSize = t.stream.length - t.r0 := by
    unfold RingStore.dataSize
    rw [hc, hho]
    rfl
  have hdsh : t.dataSizeHandle 0 = t.stream.length - q := by
    unfold RingStore.dataSizeHandle
    rw [if_pos hc, hq]
    rfl
  have hava : t.availableSize = C - 1 - t.usedSize := by
    unfold RingStore.availableSize
    rw [if_pos hc, hcap]
  rw [hava, hds, hdsh, husd]
  omega

theorem applyOp_created (s : RingStore) (op : RingOp) :
    (s.applyOp op).created = s.created := by
  cases op with
  | add d =>
    show (s.add d).snd.created = _
    unfold RingStore.add
    split
    · rfl
    · split
      · rfl
      · rfl
  | forceAdd d =>
    show (s.forceAdd d).snd.created = _
    unfold RingStore.forceAdd
    split
    · rfl
    · split
      · rfl
      · rfl
  | read m =>
    show (s.readCore m).snd.created = _
    unfold RingStore.readCore
    split
    · rfl
    · rfl
  | readHandle h2 m =>
    show (s.readHandleCore h2 m).snd.created = _
    unfold RingStore.readHandleCore
    split
    · split
      · rfl
      · rfl
    · rfl

theorem applyOp_handledOnly (s : RingStore) (op : RingOp) :
    (s.applyOp op).handledOnly = s.handledOnly := by
  cases op with
  | add d =>
    show (s.add d).snd.handledOnly = _
    unfold RingStore.add
    split
    · rfl
    · split
      · rfl
      · rfl
  | forceAdd d =>
    show (s.forceAdd d).snd.handledOnly = _
    unfold RingStore.forceAdd
    split
    · rfl
    · split
      · rfl
      · rfl
  | read m =>
    show (s.readCore m).snd.handledOnly = _
    unfold RingStore.readCore
    split
    · rfl
    · rfl
  | readHandle h2 m =>
    show (s.readHandleCore h2 m).snd.handledOnly = _
    unfold RingStore.readHandleCore
    split
    · split
      · rfl
      · rfl
    · rfl

theorem cursor_taken_applyOp (s : RingStore) (op : RingOp) (h r : Nat)
    (hcur : s.cursors.getD h none = some r) :
    ∃ q, (s.applyOp op).cursors.getD h none = some q := by
  cases op with
  | add d =>
    refine ⟨r, ?_⟩
    show (s.add d).snd.cursors.getD h none = some r
    rw [add_cursors]
    exact hcur
  | forceAdd d =>
    show ∃ q, (s.forceAdd d).snd.cursors.getD h none = some q
    unfold RingStore.forceAdd
    split
    · exact ⟨r, hcur⟩
    · split
      · exact ⟨r, hcur⟩
      · refine ⟨max r (s.stream.length + d.length - (s.capacity - 1)), ?_⟩
        show ((s.cursors.map (Option.map _)).getD h none) = _
        rw [getD_map_optionMap, hcur]
        rfl
  | read m =>
    refine ⟨r, ?_⟩
    show (s.readCore m).snd.cursors.getD h none = some r
    rw [readCore_cursors]
    exact hcur
  | readHandle h2 m =>
    show ∃ q, (s.readHandleCore h2 m).snd.cursors.getD h none = some q
    cases hcr : s.created with
    | false =>
      unfold RingStore.readHandleCore
      rw [if_neg (by simp [hcr])]
      exact ⟨r, hcur⟩
    | true =>
      cases hg : s.cursors.getD h2 none with
      | none =>
        rw [readHandleCore_none_eq s h2 m hcr hg]
        exact ⟨r, hcur⟩
      | some ρ =>
        rw [readHandleCore_state_eq s h2 m ρ hcr hg]
        by_cases hh : h2 = h
        · subst hh
          refine ⟨ρ + min m (s.stream.length - ρ), ?_⟩
          exact getD_set_self _ _ _ (getD_some_lt _ _ _ hg)
        · refine ⟨r, ?_⟩
          show (s.cursors.set h2 _).getD h none = some r
          rw [getD_set_ne _ _ _ _ hh]
          exact hcur

theorem cursor_taken_applyOps (s : RingStore) (ops : List RingOp) (h r : Nat)
    (hcur : s.cursors.getD h none = some r) :
    ∃ q, (s.applyOps ops).cursors.getD h none = some q := by
  induction ops generalizing s r with
  | nil => exact ⟨r, hcur⟩
  | cons op rest ih =>
    obtain ⟨q, hq⟩ := cursor_taken_applyOp s op h r hcur
    exact ih _ q hq

theorem available_plus_dsh_le (C : Nat) (t : RingStore) (h q : Nat)
    (hInv : RingStore.CursorsInv C t) (hq : t.cursors.getD h none = some q) :
    t.availableSize + t.dataSizeHandle h ≤ C - 1 := by
  have hused := usedSize_le_of_inv C t hInv
  obtain ⟨hc, hho, hcap, _, _, hcurs⟩ := hInv
  have hlag := lag_le_usedSize t q (getD_mem _ _ _ hq)
  have hdsh : t.dataSizeHandle h = t.stream.length - q := by
    unfold RingStore.dataSizeHandle
    rw [if_pos hc, hq]
  have hava : t.availableSize = C - 1 - t.usedSize := by
    unfold RingStore.availableSize
    rw [if_pos hc, hcap]
  rw [hdsh, hava]
  omega

theorem unreadSeq_eq (s : RingStore) (h r : Nat)
    (hcur : s.cursors.getD h none = some r) :
    s.unreadSeq h = s.stream.drop r := by
  unfold RingStore.unreadSeq
  rw [hcur]

theorem readBytesH_trace (h : Nat) (ops : List RingOp) :
    ∀ (s : RingStore) (r : Nat),
    s.created = true → s.handledOnly = false →
    s.cursors.getD h none = some r → r ≤ s.stream.length →
    (∀ op ∈ ops, op.isForce = false) →
    RingStore.readBytesH h s ops ++ (s.applyOps ops).unreadSeq h
      = s.unreadSeq h ++ RingStore.addedBytes s ops := by
  induction ops with
  | nil =>
    intro s r hc hho hcur hrle _
    show [] ++ s.unreadSeq h = s.unreadSeq h ++ []
    simp
  | cons op rest ih =>
    intro s r hc hho hcur hrle hnf
    have hnfrest : ∀ o ∈ rest, o.isForce = false :=
      fun o ho => hnf o (List.mem_cons_of_mem _ ho)
    show s.opReadH h op ++ RingStore.readBytesH h (s.applyOp op) rest
        ++ ((s.applyOp op).applyOps rest).unreadSeq h
      = s.unreadSeq h ++ (s.opAdded op ++ (s.applyOp op).addedBytes rest)
    cases op with
    | add d =>
      by_cases hfit : s.availableSize < d.length
      · have hfail := add_fail_eq s d hfit
        have hst : s.applyOp (RingOp.add d) = s := by
          show (s.add d).snd = s
          rw [hfail]
        have hop : s.opAdded (RingOp.add d) = [] := by
          show (if (s.add d).fst = true then d else []) = []
          rw [hfail]
          rfl
        have hrd : s.opReadH h (RingOp.add d) = [] := rfl
        rw [hst, hop, hrd, List.nil_append, List.nil_append]
        exact ih s r hc hho hcur hrle hnfrest
      · have hok := add_state_eq s d hc hho hfit
        set sA := s.applyOp (RingOp.add d) with hsA
        have hA : sA = { s with stream := s.stream ++ d } := by
          rw [hsA]
          show (s.add d).snd = _
          rw [hok]
        have hAs : sA.stream = s.stream ++ d := by rw [hA]
        have hAc : sA.cursors = s.cursors := by rw [hA]
        have hAcr : sA.created = true := by rw [hA]; exact hc
        have hAho : sA.handledOnly = false := by rw [hA]; exact hho
        have hcur2 : sA.cursors.getD h none = some r := by rw [hAc]; exact hcur
        have hrle2 : r ≤ sA.stream.length := by
          rw [hAs]
          simp only [List.length_append]
          omega
        have ihA := ih sA r hAcr hAho hcur2 hrle2 hnfrest
        have hunA : sA.unreadSeq h = s.stream.drop r ++ d := by
          rw [unreadSeq_eq sA h r hcur2, hAs, List.drop_append_of_le_length hrle]
        rw [hunA] at ihA
        have hop : s.opAdded (RingOp.add d) = d := by
          show (if (s.add d).fst = true then d else []) = d
          rw [hok]
          rfl
        have hrd : s.opReadH h (RingOp.add d) = [] := rfl
        rw [hop, hrd, List.nil_append, unreadSeq_eq s h r hcur, ihA,
            List.append_assoc]
    | forceAdd d =>
      have := hnf (RingOp.forceAdd d) (List.mem_cons_self _ _)
      simp [RingOp.isForce] at this
    | read m =>
      have hst := readCore_state_eq s m hc hho
      set sA := s.applyOp (RingOp.read m) with hsA
      have hA : sA = { s with r0 := s.r0 + min m (s.stream.length - s.r0) } := by
        rw [hsA]
        show (s.readCore m).snd = _
        rw [hst]
      have hAs : sA.stream = s.stream := by rw [hA]
      have hAc : sA.cursors = s.cursors := by rw [hA]
      have hAcr : sA.created = true := by rw [hA]; exact hc
      have hAho : sA.handledOnly = false := by rw [hA]; exact hho
      have hcur2 : sA.cursors.getD h none = some r := by rw [hAc]; exact hcur
      have hrle2 : r ≤ sA.stream.length := by rw [hAs]; exact hrle
      have ihA := ih sA r hAcr hAho hcur2 hrle2 hnfrest
      have hunA : sA.unreadSeq h = s.stream.drop r := by
        rw [unreadSeq_eq sA h r hcur2, hAs]
      rw [hunA] at ihA
      have hop : s.opAdded (RingOp.read m) = [] := rfl
      have hrd : s.opReadH h (RingOp.read m) = [] := rfl
      rw [hop, hrd, List.nil_append, List.nil_append, unreadSeq_eq s h r hcur]
      exact ihA
    | readHandle h2 m =>
      by_cases hh : h2 = h
      · subst hh
        have hst := readHandleCore_state_eq s h2 m r hc hcur
        set sA := s.applyOp (RingOp.readHandle h2 m) with hsA
        have hA : sA = { s with cursors := (s.cursors.set h2
            (some (r + min m (s.stream.length - r)))) } := by
          rw [hsA]
          show (s.readHandleCore h2 m).snd = _
          rw [hst]
        have hAs : sA.stream = s.stream := by rw [hA]
        have hAc : sA.cursors
            = s.cursors.set h2 (some (r + min m (s.stream.length - r))) := by
          rw [hA]
        have hAcr : sA.created = true := by rw [hA]; exact hc
        have hAho : sA.handledOnly = false := by rw [hA]; exact hho
        have hcur2 : sA.cursors.getD h2 none
            = some (r + min m (s.stream.length - r)) := by
          rw [hAc]
          exact getD_set_self _ _ _ (getD_some_lt _ _ _ hcur)
        have hrle2 : r + min m (s.stream.length - r) ≤ sA.stream.length := by
          rw [hAs]
          omega
        have ihA := ih sA (r + min m (s.stream.length - r)) hAcr hAho hcur2
          hrle2 hnfrest
        have hunA : sA.unreadSeq h2
            = s.stream.drop (r + min m (s.stream.length - r)) := by
          rw [unreadSeq_eq sA h2 _ hcur2, hAs]
        rw [hunA] at ihA
        have hchunk : s.opReadH h2 (RingOp.readHandle h2 m)
            = (s.stream.drop r).take (min m (s.stream.length - r)) := by
          show (if h2 = h2 then (s.readHandleCore h2 m).fst else []) = _
          rw [if_pos rfl, hst]
        have hop : s.opAdded (RingOp.readHandle h2 m) = [] := rfl
        rw [hchunk, hop, List.nil_append, unreadSeq_eq s h2 r hcur,
            List.append_assoc, ihA, ← List.append_assoc,
            List.drop_take_append_drop]
      · have hop : s.opAdded (RingOp.readHandle h2 m) = [] := rfl
        have hrd : s.opReadH h (RingOp.readHandle h2 m) = [] := by
          show (if h2 = h then (s.readHandleCore h2 m).fst else []) = []
          rw [if_neg hh]
        cases hg : s.cursors.getD h2 none with
        | none =>
          have hst : s.applyOp (RingOp.readHandle h2 m) = s := by
            show (s.readHandleCore h2 m).snd = s
            rw [readHandleCore_none_eq s h2 m hc hg]
          rw [hst, hop, hrd, List.nil_append, List.nil_append]
          exact ih s r hc hho hcur hrle hnfrest
        | some ρ =>
          have hst := readHandleCore_state_eq s h2 m ρ hc hg
          set sA := s.applyOp (RingOp.readHandle h2 m) with hsA
          have hA : sA = { s with cursors := (s.cursors.set h2
              (some (ρ + min m (s.stream.length - ρ)))) } := by
            rw [hsA]
            show (s.readHandleCore h2 m).snd = _
            rw [hst]
          have hAs : sA.stream = s.stream := by rw [hA]
          have hAc : sA.cursors
              = s.cursors.set h2 (some (ρ + min m (s.stream.length - ρ))) := by
            rw [hA]
          have hAcr : sA.created = true := by rw [hA]; exact hc
          have hAho : sA.handledOnly = false := by rw [hA]; exact hho
          have hcur2 : sA.cursors.getD h none = some r := by
            rw [hAc, getD_set_ne _ _ _ _ hh]
            exact hcur
          have hrle2 : r ≤ sA.stream.length := by rw [hAs]; exact hrle
          have ihA := ih sA r hAcr hAho hcur2 hrle2 hnfrest
          have hunA : sA.unreadSeq h = s.stream.drop r := by
            rw [unreadSeq_eq sA h r hcur2, hAs]
          rw [hunA] at ihA
          rw [hop, hrd, List.nil_append, List.nil_append,
              unreadSeq_eq s h r hcur]
          exact ihA

theorem readHandle_faster_keeps_available_left (t : RingStore) (q1 q2 m : Nat)
    (htc : t.created = true)
    (hshape : t.cursors = [some q1, some q2])
    (hlag : t.stream.length - q1 ≤ t.stream.length - q2) :
    ((t.readHandleCore 0 m).snd).availableSize = t.availableSize := by
  have hg : t.cursors.getD 0 none = some q1 := by rw [hshape]; rfl
  rw [readHandleCore_state_eq t 0 m q1 htc hg]
  simp only [RingStore.availableSize, RingStore.usedSize, RingStore.lags, hshape, htc]
  simp only [List.set_cons_zero, List.filterMap_cons, Option.map_some',
    List.filterMap_nil, List.foldr_cons, List.foldr_nil]
  simp only [if_true]
  omega

theorem readHandle_faster_keeps_available_right (u : RingStore) (p1 p2 m : Nat)
    (huc : u.created = true)
    (hshape : u.cursors = [some p1, some p2])
    (hlag : u.stream.length - p2 ≤ u.stream.length - p1) :
    ((u.readHandleCore 1 m).snd).availableSize = u.availableSize := by
  have hg : u.cursors.getD 1 none = some p2 := by rw [hshape]; rfl
  rw [readHandleCore_state_eq u 1 m p2 huc hg]
  simp only [RingStore.availableSize, RingStore.usedSize, RingStore.lags, hshape, huc]
  simp only [List.set_cons_succ, List.set_cons_zero, List.filterMap_cons,
    Option.map_some', List.filterMap_nil, List.foldr_cons, List.foldr_nil]
  simp only [if_true]
  omega

/-- C3: with two cursors taken, (i) over any operation sequence free of
forced adds, the bytes each cursor returns followed by its remaining
pending bytes are exactly its initial pending bytes followed by all bytes
added — each cursor sees the full added sequence in order, regardless of
the operations (including the other cursor's reads) interleaved; (ii)
availableSize plus either cursor's pending count never exceeds capacity - 1,
so availableSize reaches capacity - 1 only once both cursors have fully
drained; (iii) reading through the cursor that lags no more than the other
leaves availableSize unchanged — available space recovers only as the
slower cursor consumes. -/
theorem two_cursor_reads
    (C : Nat) (s t u : RingStore) (ops : List RingOp)
    (h1 h2 r1 r2 q1 q2 p1 p2 m m2 : Nat)
    (hInv : RingStore.CursorsInv C s)
    (hcur1 : s.cursors.getD h1 none = some r1)
    (hcur2 : s.cursors.getD h2 none = some r2)
    (hnf : ∀ op ∈ ops, op.isForce = false)
    (htc : t.created = true)
    (htshape : t.cursors = [some q1, some q2])
    (hlagt : t.stream.length - q1 ≤ t.stream.length - q2)
    (huc : u.created = true)
    (hushape : u.cursors = [some p1, some p2])
    (hlagu : u.stream.length - p2 ≤ u.stream.length - p1) :
    (RingStore.readBytesH h1 s ops ++ (s.applyOps ops).unreadSeq h1
       = s.unreadSeq h1 ++ RingStore.addedBytes s ops) ∧
    (RingStore.readBytesH h2 s ops ++ (s.applyOps ops).unreadSeq h2
       = s.unreadSeq h2 ++ RingStore.addedBytes s ops) ∧
    (s.applyOps ops).availableSize + (s.applyOps ops).dataSizeHandle h1 ≤ C - 1 ∧
    (s.applyOps ops).availableSize + (s.applyOps ops).dataSizeHandle h2 ≤ C - 1 ∧
    ((t.readHandleCore 0 m).snd).availableSize = t.availableSize ∧
    ((u.readHandleCore 1 m2).snd).availableSize = u.availableSize := by
  obtain ⟨hc, hho, hcap, hr0le, hr0lag, hcurs⟩ := hInv
  have hInv2 : RingStore.CursorsInv C s := ⟨hc, hho, hcap, hr0le, hr0lag, hcurs⟩
  have hb1 := hcurs _ (getD_mem _ _ _ hcur1) r1 rfl
  have hb2 := hcurs _ (getD_mem _ _ _ hcur2) r2 rfl
  refine ⟨readBytesH_trace h1 ops s r1 hc hho hcur1 hb1.1 hnf,
          readBytesH_trace h2 ops s r2 hc hho hcur2 hb2.1 hnf, ?_, ?_,
          readHandle_faster_keeps_available_left t q1 q2 m htc htshape hlagt,
          readHandle_faster_keeps_available_right u p1 p2 m2 huc hushape hlagu⟩
  · obtain ⟨w1, hw1⟩ := cursor_taken_applyOps s ops h1 r1 hcur1
    exact available_plus_dsh_le C _ h1 w1 (cursorsInv_applyOps C s ops hInv2) hw1
  · obtain ⟨w2, hw2⟩ := cursor_taken_applyOps s ops h2 r2 hcur2
    exact available_plus_dsh_le C _ h2 w2 (cursorsInv_applyOps C s ops hInv2) hw2

/-- Witness for C3: the capacity-4 two-cursor store under a concrete add,
unhandled read and one read per cursor, plus the two faster-cursor-read
stores. -/
theorem two_cursor_reads_witness :
    (RingStore.readBytesH 0 c3s c3ops ++ (c3s.applyOps c3ops).unreadSeq 0
       = c3s.unreadSeq 0 ++ RingStore.addedBytes c3s c3ops) ∧
    (RingStore.readBytesH 1 c3s c3ops ++ (c3s.applyOps c3ops).unreadSeq 1
       = c3s.unreadSeq 1 ++ RingStore.addedBytes c3s c3ops) ∧
    (c3s.applyOps c3ops).availableSize + (c3s.applyOps c3ops).dataSizeHandle 0
      ≤ 4 - 1 ∧
    (c3s.applyOps c3ops).availableSize + (c3s.applyOps c3ops).dataSizeHandle 1
      ≤ 4 - 1 ∧
    ((c3t.readHandleCore 0 2).snd).availableSize = c3t.availableSize ∧
    ((c3u.readHandleCore 1 2).snd).availableSize = c3u.availableSize :=
  two_cursor_reads 4 c3s c3t c3u c3ops 0 1 0 0 1 0 0 1 2 2
    (by
      refine ⟨rfl, rfl, rfl, by simp [c3s], by simp [c3s], ?_⟩
      intro c hcm ρ hceq
      subst hceq
      simp only [c3s, List.mem_cons, List.not_mem_nil, or_false,
        Option.some.injEq] at hcm
      rcases hcm with h | h <;> subst h <;> exact ⟨by decide, by decide⟩)
    rfl rfl (by decide) rfl rfl (by decide) rfl rfl (by decide)
